import Mathlib

/-!
Verification of the frequency response data (FRD) module `frdata.py`.

The module represents a linear system by sampled complex frequency responses:
a frequency axis `omega` (sampled angular frequencies) together with a
3-dimensional response tensor `fresp[output, input, frequency]`, and provides
algebraic composition (add, mul, div, pow, feedback), interpolation-based
evaluation, a frequency sweep, and a grid-conversion entry point
`_convertToFRD`.

Modelling conventions:
  * Python floats for frequencies are modelled as rationals, so that every
    comparison the code performs is decidable and the definitions evaluate.
  * Complex gains live in an abstract discrete field `K` (instantiated to `ℂ`
    in the theorems): the code never branches on a gain except for the
    singularity check inside `linalg.solve`, which `DecidableEq K` covers.
  * Exceptions are modelled by `Except Err`; each `Err` constructor names the
    Python exception (or the numpy failure mode) raised at that point.
  * In-place mutation of a caller-supplied frequency array (`omega.sort()`)
    is modelled by returning the new array value alongside the result.
-/

/-- A numpy `ndarray` as passed to the data constructor: a shape together with
the row-major flattened data.  `hdata` is numpy's well-formedness invariant. -/
structure NDArray (α : Type) where
  shape : List ℕ
  data : List α
  hdata : data.length = shape.prod

/-- The exceptions (and hard failure modes) the modelled code can raise.
`shapeMismatch` is the `TypeError` of the constructor shape check,
`dimensionMismatch` the `ValueError` of the operand size checks,
`attributeError` an access to an attribute that no object defines
(`FRD` has no `num`/`den`, `ndarray` has no `insert`/`append`),
`indexError` an out-of-bounds numpy access, `truthValueAmbiguous` the
`ValueError` numpy raises for `bool()` of a multi-element array,
`broadcastMismatch` a numpy shape broadcast failure, `singularMatrix` the
`LinAlgError` of `linalg.solve`, and `splineError` the failure of the
external spline fit on a non-strictly-increasing parameter axis. -/
inductive Err where
  | shapeMismatch
  | indexError
  | attributeError
  | dimensionMismatch
  | notImplemented
  | invalidExponent
  | noOverlap
  | valueError
  | truthValueAmbiguous
  | broadcastMismatch
  | singularMatrix
  | splineError

/-- `FRD.epsw = 1e-8`, the element-wise frequency matching tolerance. -/
def epsw : ℚ := 1 / 100000000

/-- numpy's elementwise `abs` on a rational, written out so that it evaluates
by kernel reduction. -/
def ratAbs (x : ℚ) : ℚ := if x < 0 then -x else x

/-- A constructed frequency response model: the frequency axis `omega` and the
response tensor `fresp[output, input, frequency]`.

Both tensor dimensions are the single `p`: the constructor's interpolation
setup loop runs `i` over `range(fresp.shape[1])` and `j` over
`range(fresp.shape[0])` but indexes `fresp[i, j, :]`, so any non-square
tensor raises `IndexError` before the object exists — every live `FRD`
instance is square.

`sorted` is the data-model invariant of the frequency axis (spec section 3:
strictly ascending; duplicate or non-monotonic axes are a caller error that
breaks the interpolation fit). -/
structure FRD (K : Type) where
  p : ℕ
  omega : List ℚ
  fresp : Fin p → Fin p → Fin omega.length → K
  sorted : omega.Sorted (· < ·)

variable {K : Type} [Field K] [DecidableEq K]

/-- The tail of `FRD.__init__` on an already 3-dimensional response array of
shape `(o, i, N)` with axis `ω`: the explicit shape check
(`fresp.shape[-1] == len(omega)`), then the interpolation setup loop whose
transposed index bounds reject any non-square tensor with `IndexError`, and
the spline fit itself, which needs a strictly increasing parameter axis.

Modelled from the spec: the spline fit (`scipy.interpolate.splprep`, external
to this module) is the step that consumes the axis; per spec section 3 a
non-ascending or duplicated axis is a caller error that breaks it. -/
def FRD.fromData (o i N : ℕ) (t : Fin o → Fin i → Fin N → K) (ω : List ℚ) :
    Except Err (FRD K) :=
  if hN : N = ω.length then
    -- In the source the spline fits and the (transposed-bounds) tensor
    -- accesses interleave pair by pair; for positive dimensions the fit of
    -- pair (0, 0) runs before any out-of-bounds access, so a bad axis is
    -- detected first and a non-square tensor second.  (Tensors with a zero
    -- extent, which the loops skip entirely, are outside this model.)
    if hs : ω.Sorted (· < ·) then
      if ho : o = i then
        .ok ⟨o, ω, fun a b k => t a (Fin.cast ho b) (Fin.cast hN.symm k), hs⟩
      else .error .indexError
    else .error .splineError
  else .error .shapeMismatch

/-- The two-argument data path of `FRD.__init__` (`FRD(d, w)` with `d` a raw
response array and `w` an axis array).

Note the bug this path carries: the source computes
`self.fresp.reshape(1, 1, len(args[0]))` for 1-dimensional data but discards
the result (numpy `reshape` is not in-place and the return value is not
assigned), so a 1-D SISO response keeps shape `(N,)` and always fails the
3-dimensionality check below.  (The one-argument copy branch and the
sample-another-system branch of `__init__` are not modelled here; the latter
is the generic-system arm of `convertToFRD`.) -/
def FRD.ofArrays (d : NDArray K) (w : NDArray ℚ) : Except Err (FRD K) :=
  match d.shape with
  | [d0, d1, N] =>
    -- `len(fresp.shape) == 3`; now `omega.shape[-1]` is evaluated, which
    -- raises IndexError on a 0-dimensional axis before the shape TypeError.
    match w.shape.getLast? with
    | none => .error .indexError
    | some wl =>
      if N ≠ wl ∨ w.shape.length ≠ 1 then .error .shapeMismatch
      else
        FRD.fromData d0 d1 N
          (fun i j k => d.data.getD (((i : ℕ) * d1 + (j : ℕ)) * N + (k : ℕ)) 0)
          w.data
  | _ => .error .shapeMismatch

/-- Modelled from the spec: the interpolation engine (scipy `splprep`/`splev`,
external to this module) is fitted with zero smoothing tolerance, so the
resulting curve passes through every sample exactly (spec section 4.2); the
inverse-magnitude weights only stabilise the fit and do not change the
interpolant.  Values away from the sampled axis are implementation-defined
(spec section 4.2 failure note) and stand in here as `0`. -/
def splineAt (u : List ℚ) (pts : Fin u.length → K) (w : ℚ) : K :=
  if h : u.indexOf w < u.length then pts ⟨u.indexOf w, h⟩ else 0

/-- `FRD.evalfr`: evaluate the full response matrix at one frequency through
the per-pair splines.  The construction loop stores the spline of
`fresp[i, j, :]` at `ifunc[i, j]` with `(i, j)` transposed bounds and the
evaluation loop reads `ifunc[i, j]` for `out[i, j]`; for the square tensors
that survive construction the two coincide, so `out[i, j]` interpolates
`fresp[i, j, :]`. -/
def FRD.evalfr (m : FRD K) (w : ℚ) : Matrix (Fin m.p) (Fin m.p) K :=
  Matrix.of fun i j => splineAt m.omega (fun k => m.fresp i j k) w

/-- The per-sample response matrix `self.fresp[:, :, k]`. -/
def FRD.sampleMat (m : FRD K) (k : Fin m.omega.length) :
    Matrix (Fin m.p) (Fin m.p) K :=
  Matrix.of fun i j => m.fresp i j k

/-- The per-sample response matrix of `m` re-indexed along an equal dimension
count (used when two operands' sizes have been checked equal). -/
def FRD.sampleMatAs (m : FRD K) (q : ℕ) (h : q = m.p) (k : Fin m.omega.length) :
    Matrix (Fin q) (Fin q) K :=
  Matrix.of fun i j => m.fresp (Fin.cast h i) (Fin.cast h j) k

/-- The operand kinds `_convertToFRD` inspects: an existing model, a generic
system, or a numeric scalar.  The generic system is modelled from the spec:
the base abstraction supplies only `outputs`/`inputs` counts and an
`evalfr` response-evaluation contract (spec sections 1 and 6). -/
inductive Candidate (K : Type) where
  | frd (sys : FRD K)
  | lti (outputs inputs : ℕ) (ev : ℚ → Matrix (Fin outputs) (Fin inputs) K)
  | scalar (c : K)

/-- The "adjust frequency range" path of `_convertToFRD`, reached when the
sorted target axis does not match the candidate's axis within `epsw`.
It intersects the target with the candidate's range and then evaluates
`if not omega:` on the filtered numpy array, which only yields a boolean
for arrays of length at most one:
  * empty intersection: falsy, the intended `ValueError` (no overlap);
  * one element equal to `0.0`: falsy, the same `ValueError` spuriously;
  * one nonzero element: the endpoint padding calls `omega.insert(...)` /
    `omega.append(...)`, methods a numpy array does not have, so padding
    raises `AttributeError`; without padding the candidate is resampled;
  * two or more elements: `ValueError: truth value ... is ambiguous`.
`min()`/`max()` of an empty candidate axis also raise `ValueError`. -/
def adjustPath (sys : FRD K) (ω : List ℚ) : Except Err (FRD K) :=
  match sys.omega.min?, sys.omega.max? with
  | some lo, some hi =>
    match (ω.filter (fun x => lo ≤ x)).filter (fun x => x ≤ hi) with
    | [] => .error .noOverlap
    | [w] =>
      if w = 0 then .error .noOverlap
      else if epsw < w - lo ∨ epsw < hi - w then .error .attributeError
      else FRD.fromData sys.p sys.p 1 (fun i j _ => sys.evalfr w i j) [w]
    | _ => .error .truthValueAmbiguous
  | _, _ => .error .valueError

/-- The FRD branch of `_convertToFRD`, after the in-place sort of the target:
`(abs(omega - sys.omega) < FRD.epsw).all()` with numpy broadcasting over the
two lengths; on an element-wise match the candidate itself is returned
(no copy), otherwise the adjustment path runs. -/
def convertFRDaux (sys : FRD K) (ω : List ℚ) : Except Err (FRD K) :=
  if hn : ω.length = sys.omega.length then
    if ∀ k : Fin ω.length, ratAbs (ω.get k - sys.omega.get (Fin.cast hn k)) < epsw then
      .ok sys
    else adjustPath sys ω
  else if ω.length = 1 then
    if ∀ k : Fin sys.omega.length, ratAbs (ω.headD 0 - sys.omega.get k) < epsw then
      .ok sys
    else adjustPath sys ω
  else if sys.omega.length = 1 then
    if ∀ k : Fin ω.length, ratAbs (ω.get k - sys.omega.headD 0) < epsw then
      .ok sys
    else adjustPath sys ω
  else .error .broadcastMismatch

/-- `_convertToFRD(sys, omega, inputs=1, outputs=1)`.  The second component of
the result is the value of the caller's `omega` array after the call: the
model and generic-system branches execute `omega.sort()` in place before
comparing or sampling (even when the fast path then returns the candidate
unchanged), while the scalar branch leaves the array untouched. -/
def convertToFRD (c : Candidate K) (target : List ℚ) (inputs outputs : ℕ) :
    Except Err (FRD K) × List ℚ :=
  match c with
  | .frd sys =>
    (convertFRDaux sys (target.insertionSort (· ≤ ·)),
     target.insertionSort (· ≤ ·))
  | .lti o i ev =>
    (FRD.fromData o i (target.insertionSort (· ≤ ·)).length
       (fun a b k => ev ((target.insertionSort (· ≤ ·)).get k) a b)
       (target.insertionSort (· ≤ ·)),
     target.insertionSort (· ≤ ·))
  | .scalar s =>
    (FRD.fromData outputs inputs target.length (fun _ _ _ => s) target, target)

/-- `FRD.__add__` for an FRD right operand: re-base `other` onto `self.omega`,
check the operand sizes (`ValueError`, the spec's `DimensionMismatch`), then
`FRD(self.fresp + other.fresp, other.omega)` — a numpy element-wise sum with
last-axis broadcasting, re-checked by the constructor. -/
def FRD.add (a b : FRD K) : Except Err (FRD K) :=
  match (convertToFRD (.frd b) a.omega 1 1).1 with
  | .error e => .error e
  | .ok o =>
    -- `self.inputs != other.inputs` / `self.outputs != other.outputs`;
    -- for the square models both collapse to one comparison.
    if hp : a.p = o.p then
      if hN : a.omega.length = o.omega.length then
        FRD.fromData a.p a.p a.omega.length
          (fun i j k =>
            a.fresp i j k +
              o.fresp (Fin.cast hp i) (Fin.cast hp j) (Fin.cast hN k))
          o.omega
      else if h1 : o.omega.length = 1 then
        FRD.fromData a.p a.p a.omega.length
          (fun i j k =>
            a.fresp i j k +
              o.fresp (Fin.cast hp i) (Fin.cast hp j)
                ⟨0, by rw [h1]; exact Nat.zero_lt_one⟩)
          o.omega
      else if h2 : a.omega.length = 1 then
        FRD.fromData a.p a.p o.omega.length
          (fun i j k =>
            a.fresp i j ⟨0, by rw [h2]; exact Nat.zero_lt_one⟩ +
              o.fresp (Fin.cast hp i) (Fin.cast hp j) k)
          o.omega
      else .error .broadcastMismatch
    else .error .dimensionMismatch

/-- `FRD.__mul__` for an FRD right operand.  After the conversion and the
`self.inputs != other.outputs` size check the body still carries the
transfer-function cascade it was copied from: it reads `self.num[i][k]` and
`self.den[i][k]`, attributes that neither `FRD` nor the base abstraction
defines (the base supplies only `outputs`/`inputs` and response evaluation),
so the first loop iteration raises `AttributeError`.  With zero-size operands
the loops are empty and `FRD(num, den)` is reached with the empty
1-dimensional `array([])`, which the constructor rejects. -/
def FRD.mul (a b : FRD K) : Except Err (FRD K) :=
  match (convertToFRD (.frd b) a.omega 1 1).1 with
  | .error e => .error e
  | .ok o =>
    if a.p = o.p then
      if a.p = 0 then .error .shapeMismatch
      else .error .attributeError
    else .error .dimensionMismatch

/-- `FRD.__div__`.  MIMO operands are rejected with `NotImplementedError`;
for SISO operands the body then reads `self.num[0][0]`, an attribute lookup
on `num` that raises `AttributeError` exactly as in multiplication. -/
def FRD.div (a b : FRD K) : Except Err (FRD K) :=
  match (convertToFRD (.frd b) a.omega 1 1).1 with
  | .error e => .error e
  | .ok o =>
    if 1 < a.p ∨ 1 < o.p then .error .notImplemented
    else .error .attributeError

/-- A Python number as passed to `FRD.__pow__`: `type(other) == int` is the
only accepted case. -/
inductive PyNum where
  | pyInt (z : ℤ)
  | pyFloat (q : ℚ)

/-- The literal list `[1]` as the data argument of `FRD([1], [1])`. -/
def oneTensor : NDArray K := ⟨[1], [1], rfl⟩

/-- The literal list `[1]` as the axis argument of `FRD([1], [1])`. -/
def oneAxis : NDArray ℚ := ⟨[1], [1], rfl⟩

/-- `FRD.__pow__` for a nonnegative exponent `n`: `0` builds the unity system
`FRD([1], [1])`, `n + 1` recurses as `self * (self ** n)`. -/
def FRD.powNonneg (m : FRD K) : ℕ → Except Err (FRD K)
  | 0 => FRD.ofArrays oneTensor oneAxis
  | n + 1 => (m.powNonneg n).bind fun r => m.mul r

/-- `FRD.__pow__` for the exponent `-n`:
`(FRD([1], [1]) / self) * (self ** (-n + 1))`, evaluated left to right. -/
def FRD.powNegAux (m : FRD K) : ℕ → Except Err (FRD K)
  | 0 => m.powNonneg 0
  | n + 1 =>
    (FRD.ofArrays oneTensor oneAxis).bind fun u =>
      (u.div m).bind fun q =>
        (m.powNegAux n).bind fun r => q.mul r

/-- `FRD.__pow__`: non-`int` exponents raise `ValueError` (the spec's
`InvalidExponent`); integer exponents recurse through the cases above. -/
def FRD.pow (m : FRD K) : PyNum → Except Err (FRD K)
  | .pyFloat _ => .error .invalidExponent
  | .pyInt z => if z < 0 then m.powNegAux z.natAbs else m.powNonneg z.toNat

/-- `FRD.feedback(other, sign=-1)`: re-base `other` onto `self.omega`, check
`self.outputs == other.inputs and self.inputs == other.outputs` (for the
square models one comparison), then per sample solve
`(eye + self.fresp[:,:,k] * other.fresp[:,:,k]) X = eye` and multiply by
`self.fresp[:,:,k]`.  The solve is modelled by the explicit-field inverse
`det⁻¹ • adjugate`, with `LinAlgError` on a singular matrix.  The `sign`
argument is accepted and never read.  The loop runs over `other.omega` while
indexing `self.fresp[:, :, k]`, so a longer converted axis would step out of
bounds. -/
def FRD.feedback (P C : FRD K) (sign : ℤ) : Except Err (FRD K) :=
  match (convertToFRD (.frd C) P.omega 1 1).1 with
  | .error e => .error e
  | .ok o =>
    if hdim : P.p = o.p then
      if hL : o.omega.length ≤ P.omega.length then
        if hs : ∀ k : Fin o.omega.length,
            (1 + P.sampleMat (Fin.castLE hL k) * o.sampleMatAs P.p hdim k).det ≠ 0 then
          FRD.fromData P.p P.p o.omega.length
            (fun i j k =>
              ((((1 + P.sampleMat (Fin.castLE hL k) *
                    o.sampleMatAs P.p hdim k).det)⁻¹ •
                  (1 + P.sampleMat (Fin.castLE hL k) *
                    o.sampleMatAs P.p hdim k).adjugate) *
                P.sampleMat (Fin.castLE hL k)) i j)
            o.omega
        else .error .singularMatrix
      else .error .indexError
    else .error .dimensionMismatch

/-- `FRD.freqresp(omega)`: sort the caller's frequency sequence in place
(modelled by returning the sorted sequence as the third component), then
report `abs` and `angle` of the full-matrix evaluation at each sorted
frequency.  numpy's `abs`/`angle` are abstracted as the function arguments
`absF`/`argF` so the definition stays independent of the gain field. -/
def FRD.freqresp (absF argF : K → ℝ) (m : FRD K) (ω : List ℚ) :
    (Fin m.p → Fin m.p → Fin (ω.insertionSort (· ≤ ·)).length → ℝ) ×
      (Fin m.p → Fin m.p → Fin (ω.insertionSort (· ≤ ·)).length → ℝ) ×
      List ℚ :=
  (fun i j k => absF (m.evalfr ((ω.insertionSort (· ≤ ·)).get k) i j),
   fun i j k => argF (m.evalfr ((ω.insertionSort (· ≤ ·)).get k) i j),
   ω.insertionSort (· ≤ ·))

/-- The element-wise sum the specification promises for `a + b` on a shared
axis (spec section 4.4): same axis, tensors added entry by entry. -/
def addSpec (a b : FRD K) (hp : a.p = b.p) (hax : b.omega = a.omega) : FRD K :=
  ⟨a.p, b.omega,
   fun i j k =>
     a.fresp i j (Fin.cast (congrArg List.length hax) k) +
       b.fresp (Fin.cast hp i) (Fin.cast hp j) k,
   by rw [hax]; exact a.sorted⟩

/-- The shared frequency axis of the worked examples: `[1, 2, 3]`. -/
def axis123 : List ℚ := [1, 2, 3]

/-- A SISO model with constant response `c` on the axis `[1, 2, 3]`. -/
def constSISO (c : K) : FRD K :=
  ⟨1, axis123, fun _ _ _ => c, by decide⟩

/-- The spec's example operand `a`: constant SISO response `2` on `[1,2,3]`. -/
def aEx : FRD ℂ := constSISO 2

/-- The spec's example operand `b`: constant SISO response `4` on `[1,2,3]`. -/
def bEx : FRD ℂ := constSISO 4

/-- A two-input two-output model with constant unit response on `[1,2,3]`. -/
def mimoEx : FRD ℂ := ⟨2, axis123, fun _ _ _ => 1, by decide⟩

/-- The `(2, 3, 5)` response tensor of the spec's construction example. -/
def tensor235 : NDArray ℂ := ⟨[2, 3, 5], List.replicate 30 1, by decide⟩

/-- A length-5 frequency axis array for the construction example. -/
def axisArr5 : NDArray ℚ := ⟨[5], [1, 2, 3, 4, 5], rfl⟩

/-- A length-4 frequency axis array for the construction example. -/
def axisArr4 : NDArray ℚ := ⟨[4], [1, 2, 3, 4], rfl⟩

/-- A 1-dimensional (SISO-intent) response data array of length 5. -/
def sisoData5 : NDArray ℂ := ⟨[5], List.replicate 5 1, by decide⟩

/-- A 2-dimensional (hence invalid) frequency axis array. -/
def axisArr2D : NDArray ℚ := ⟨[5, 1], [1, 2, 3, 4, 5], by decide⟩

/-- A well-formed square `(1, 1, 3)` response tensor. -/
def tensor113 : NDArray ℂ := ⟨[1, 1, 3], [2, 2, 2], by decide⟩

/-- A length-3 frequency axis array. -/
def axisArr3 : NDArray ℚ := ⟨[3], [1, 2, 3], rfl⟩

/-! ## Helper lemmas -/

theorem FRD.sortedLe (m : FRD K) : m.omega.Sorted (· ≤ ·) :=
  m.sorted.imp (fun h => le_of_lt h)

theorem convertFRDaux_self (sys : FRD K) : convertFRDaux sys sys.omega = .ok sys := by
  rw [convertFRDaux, dif_pos rfl, if_pos]
  intro k
  simp [ratAbs, epsw]

theorem convert_frd_self (sys : FRD K) (i o : ℕ) :
    convertToFRD (.frd sys) sys.omega i o = (.ok sys, sys.omega) := by
  rw [convertToFRD]
  rw [List.Sorted.insertionSort_eq sys.sortedLe]
  rw [convertFRDaux_self]

/-! ## Claims -/

/-- Claim C1: the claim states that `A * B` is the per-sample complex matrix
product, with `2 * 4 = 8` on the axis `[1, 2, 3]` for the SISO example.  The
code cannot produce this: after the conversion and size check, `__mul__`
still executes the transfer-function cascade it was copied from and reads
`self.num[i][k]`, an attribute no FRD defines, raising `AttributeError` on
the spec's own example instead of returning the value-8 model. -/
theorem claim_C1_mul_attribute_error :
    aEx.mul bEx = .error .attributeError := by
  have h : (convertToFRD (.frd bEx) aEx.omega 1 1).1 = .ok bEx :=
    congrArg Prod.fst (convert_frd_self bEx 1 1)
  simp only [FRD.mul, h]
  simp [aEx, bEx, constSISO]

/-- Claim C3: construction from an explicit tensor.  The `(2, 3, 5)` tensor
with a length-5 axis is claimed to succeed with `outputs = 2, inputs = 3`,
but the interpolation setup loop indexes `fresp[i, j, :]` with the loop
bounds of `i` and `j` swapped, so the non-square tensor raises `IndexError`;
a 1-D SISO data array is claimed to be reshaped to `1×1×N`, but the
`reshape` result is discarded and the shape check raises instead.  The
failure cases behave as claimed (`ShapeMismatch` for the length-4 axis and
for a 2-D axis), and a square `(1, 1, 3)` tensor does construct. -/
theorem claim_C3_construction :
    (FRD.ofArrays tensor235 axisArr5 = .error .indexError) ∧
    (FRD.ofArrays sisoData5 axisArr5 = .error .shapeMismatch) ∧
    (FRD.ofArrays tensor235 axisArr4 = .error .shapeMismatch) ∧
    (FRD.ofArrays tensor235 axisArr2D = .error .shapeMismatch) ∧
    ((FRD.ofArrays tensor113 axisArr3).isOk = true) :=
  ⟨rfl, rfl, rfl, rfl, rfl⟩

/-- Claim C4: exponentiation.  A non-integer exponent is rejected with
`ValueError` as claimed, but `m ** 0` does not return the SISO unity
response: it builds `FRD([1], [1])`, and the discarded 1-D reshape in the
constructor makes that raise the shape `TypeError`; positive and negative
exponents recurse into the same failure. -/
theorem claim_C4_pow :
    (aEx.pow (.pyInt 0) = .error .shapeMismatch) ∧
    (aEx.pow (.pyInt 2) = .error .shapeMismatch) ∧
    (aEx.pow (.pyInt (-1)) = .error .shapeMismatch) ∧
    (aEx.pow (.pyFloat (1 / 2)) = .error .invalidExponent) :=
  ⟨rfl, rfl, rfl, rfl⟩

/-- Claim C5: division.  The MIMO guard raises `NotImplementedError` as
claimed, but the SISO quotient is never computed: the body reads
`self.num[0][0]`, an attribute no FRD defines, so the spec's example
`a / b = 0.5` raises `AttributeError` instead. -/
theorem claim_C5_div :
    (aEx.div bEx = .error .attributeError) ∧
    (mimoEx.div bEx = .error .notImplemented) := by
  have h : (convertToFRD (.frd bEx) aEx.omega 1 1).1 = .ok bEx :=
    congrArg Prod.fst (convert_frd_self bEx 1 1)
  have h2 : (convertToFRD (.frd bEx) mimoEx.omega 1 1).1 = .ok bEx :=
    congrArg Prod.fst (convert_frd_self bEx 1 1)
  constructor
  · simp only [FRD.div, h]
    simp [aEx, bEx, constSISO]
  · simp only [FRD.div, h2]
    simp [mimoEx, bEx, constSISO]

/-- Claim C7: for every model and every sampled frequency, `evalfr`
reproduces the stored tensor slice at that frequency: the zero-smoothing
spline fit interpolates, so the curve passes through every sample. -/
theorem claim_C7_evalfr_reproduces_samples (m : FRD ℂ)
    (k : Fin m.omega.length) (i j : Fin m.p) :
    m.evalfr (m.omega.get k) i j = m.fresp i j k := by
  have hnd : m.omega.Nodup := m.sorted.nodup
  have hidx : m.omega.indexOf (m.omega.get k) = (k : ℕ) := List.get_indexOf hnd k
  have hidx2 : List.indexOf m.omega[(k : ℕ)] m.omega = (k : ℕ) :=
    List.indexOf_getElem hnd _ k.isLt
  simp [FRD.evalfr, splineAt, hidx, hidx2, k.isLt]

/-- Claim C8: `freqresp` sorts the caller's frequency sequence ascending (the
in-place mutation is the third returned component), and the magnitude and
phase tensors hold the absolute value and principal-value angle of the
full-matrix evaluation at each sorted frequency; in particular the input
`[3, 1, 2]` comes back as `[1, 2, 3]` with the tensors indexed by the sorted
order. -/
theorem claim_C8_freqresp (m : FRD ℂ) (ω : List ℚ) :
    ((FRD.freqresp (fun z => Complex.abs z) Complex.arg m ω).2.2 =
        ω.insertionSort (· ≤ ·)) ∧
    ((FRD.freqresp (fun z => Complex.abs z) Complex.arg m ω).2.2).Sorted (· ≤ ·) ∧
    ((FRD.freqresp (fun z => Complex.abs z) Complex.arg m ω).2.2).Perm ω ∧
    (∀ (i j : Fin m.p) (k : Fin (ω.insertionSort (· ≤ ·)).length),
        (FRD.freqresp (fun z => Complex.abs z) Complex.arg m ω).1 i j k =
          Complex.abs (m.evalfr ((ω.insertionSort (· ≤ ·)).get k) i j)) ∧
    (∀ (i j : Fin m.p) (k : Fin (ω.insertionSort (· ≤ ·)).length),
        (FRD.freqresp (fun z => Complex.abs z) Complex.arg m ω).2.1 i j k =
          Complex.arg (m.evalfr ((ω.insertionSort (· ≤ ·)).get k) i j)) ∧
    ((FRD.freqresp (fun z => Complex.abs z) Complex.arg m [3, 1, 2]).2.2 =
        [1, 2, 3]) :=
  ⟨rfl, List.sorted_insertionSort _ _, List.perm_insertionSort _ _,
   fun _ _ _ => rfl, fun _ _ _ => rfl, rfl⟩

/-- Claim C10: for a model or generic-system candidate the grid-conversion
entry point sorts the caller's target axis array in place before comparing
or sampling — the second component is the caller's array after the call, and
it equals the sorted target in every branch, the fast path included.  The
conversion receives no response tensor of the target's owner (visible in the
type), so that tensor is never reordered to match; the scalar branch, by
contrast, leaves the target untouched. -/
theorem claim_C10_convert_sorts_in_place (sys : FRD ℂ) (target : List ℚ)
    (o i : ℕ) (ev : ℚ → Matrix (Fin o) (Fin i) ℂ) (c : ℂ) :
    ((convertToFRD (.frd sys) target 1 1).2 = target.insertionSort (· ≤ ·)) ∧
    ((convertToFRD (.lti o i ev) target 1 1).2 = target.insertionSort (· ≤ ·)) ∧
    ((convertToFRD (.frd sys) target 1 1).2).Sorted (· ≤ ·) ∧
    ((convertToFRD (.scalar c) target 1 1).2 = target) :=
  ⟨rfl, rfl, List.sorted_insertionSort _ _, rfl⟩

/-- Claim C6: addition of two models on an identical frequency axis requires
equal input and output counts — `ValueError` (the spec's `DimensionMismatch`)
otherwise — and on success returns the model on the same axis whose tensor is
the element-wise sum of the operands' tensors. -/
theorem claim_C6_add (a b : FRD ℂ) (hax : b.omega = a.omega) :
    (a.p ≠ b.p → a.add b = .error .dimensionMismatch) ∧
    (∀ hp : a.p = b.p, a.add b = Except.ok (addSpec a b hp hax)) := by
  obtain ⟨ap, aom, afr, asort⟩ := a
  obtain ⟨bp, bom, bfr, bsort⟩ := b
  dsimp at hax
  subst hax
  have h : (convertToFRD (.frd ⟨bp, bom, bfr, bsort⟩) bom 1 1).1 =
      Except.ok (⟨bp, bom, bfr, bsort⟩ : FRD ℂ) :=
    congrArg Prod.fst (convert_frd_self ⟨bp, bom, bfr, bsort⟩ 1 1)
  constructor
  · intro hne
    simp only [FRD.add, h]
    rw [dif_neg hne]
  · intro hp
    dsimp at hp
    subst hp
    simp only [FRD.add, h]
    simp [FRD.fromData, addSpec, bsort]

/-- Claim C6 witness at the spec's example operands. -/
theorem claim_C6_add_witness :
    (bEx.omega = aEx.omega) ∧ (aEx.p = bEx.p) ∧
      aEx.add bEx = Except.ok (addSpec aEx bEx rfl rfl) :=
  ⟨rfl, rfl, (claim_C6_add aEx bEx rfl).2 rfl⟩

/-- Claim C2: feedback of two models on the same frequency axis.  The result
is identical for every value of `sign` (the parameter is accepted and never
read); mismatched input/output counts raise `ValueError` (the spec's
`DimensionMismatch`); and whenever every per-sample matrix `I + P_k C_k` is
invertible the result is the model on the same axis whose sample `k` is
`(I + P_k C_k)⁻¹ * P_k`, obtained through the linear solve. -/
theorem claim_C2_feedback (P C : FRD ℂ) (s1 s2 : ℤ) (hax : C.omega = P.omega) :
    (P.feedback C s1 = P.feedback C s2) ∧
    (P.p ≠ C.p → P.feedback C s1 = .error .dimensionMismatch) ∧
    (∀ (hp : P.p = C.p)
        (hinv : ∀ k : Fin C.omega.length,
          IsUnit (1 + P.sampleMat (Fin.cast (congrArg List.length hax) k) *
              C.sampleMatAs P.p hp k).det),
      P.feedback C s1 =
        Except.ok ⟨P.p, C.omega,
          fun i j k =>
            ((1 + P.sampleMat (Fin.cast (congrArg List.length hax) k) *
                  C.sampleMatAs P.p hp k)⁻¹ *
              P.sampleMat (Fin.cast (congrArg List.length hax) k)) i j,
          C.sorted⟩) := by
  refine ⟨rfl, ?_, ?_⟩
  · intro hne
    obtain ⟨pp, pom, pfr, psort⟩ := P
    obtain ⟨cp, com, cfr, csort⟩ := C
    dsimp at hax hne
    subst hax
    have h : (convertToFRD (.frd ⟨cp, com, cfr, csort⟩) com 1 1).1 =
        Except.ok (⟨cp, com, cfr, csort⟩ : FRD ℂ) :=
      congrArg Prod.fst (convert_frd_self ⟨cp, com, cfr, csort⟩ 1 1)
    simp only [FRD.feedback, h]
    rw [dif_neg hne]
  · intro hp hinv
    obtain ⟨pp, pom, pfr, psort⟩ := P
    obtain ⟨cp, com, cfr, csort⟩ := C
    dsimp at hax hp
    subst hax
    subst hp
    have h : (convertToFRD (.frd ⟨pp, com, cfr, csort⟩) com 1 1).1 =
        Except.ok (⟨pp, com, cfr, csort⟩ : FRD ℂ) :=
      congrArg Prod.fst (convert_frd_self ⟨pp, com, cfr, csort⟩ 1 1)
    have hdet : ∀ k : Fin com.length,
        (1 + (⟨pp, com, pfr, psort⟩ : FRD ℂ).sampleMat k *
            (⟨pp, com, cfr, csort⟩ : FRD ℂ).sampleMatAs pp rfl k).det ≠ 0 :=
      fun k => isUnit_iff_ne_zero.mp (hinv k)
    simp only [FRD.feedback, h]
    simp [FRD.fromData, hdet, csort, Matrix.inv_def, Ring.inverse_eq_inv]

/-- Claim C2 witness at the spec's example operands (every per-sample matrix
is `1 + 2·4 = 9`, invertible). -/
theorem claim_C2_feedback_witness :
    (bEx.omega = aEx.omega) ∧ (aEx.p = bEx.p) ∧
      aEx.feedback bEx (-1) =
        Except.ok ⟨aEx.p, bEx.omega,
          fun i j k =>
            ((1 + aEx.sampleMat (Fin.cast (congrArg List.length rfl) k) *
                  bEx.sampleMatAs aEx.p rfl k)⁻¹ *
              aEx.sampleMat (Fin.cast (congrArg List.length rfl) k)) i j,
          bEx.sorted⟩ :=
  ⟨rfl, rfl, (claim_C2_feedback aEx bEx (-1) 1 rfl).2.2 rfl (by
    intro k
    haveI : Unique (Fin aEx.p) := (inferInstance : Unique (Fin 1))
    rw [Matrix.det_unique, isUnit_iff_ne_zero]
    simp [FRD.sampleMat, FRD.sampleMatAs, Matrix.mul_apply, Matrix.one_apply,
      aEx, bEx, constSISO]
    norm_num)⟩

theorem ratAbs_eq_abs (x : ℚ) : ratAbs x = |x| := by
  unfold ratAbs
  split_ifs with h
  · exact (abs_of_neg h).symm
  · exact (abs_of_nonneg (le_of_not_lt h)).symm

theorem countP_ge_of_prefix {α : Type} (p : α → Bool) :
    ∀ (l : List α) (m : ℕ), m ≤ l.length →
      (∀ (j : ℕ) (hj : j < l.length), j < m → p (l.get ⟨j, hj⟩)) →
      m ≤ l.countP p := by
  intro l
  induction l with
  | nil => intro m hm _; simpa using hm
  | cons a t ih =>
    intro m hm h
    cases m with
    | zero => exact Nat.zero_le _
    | succ m =>
      have hpa : p a = true := h 0 (Nat.succ_pos _) (Nat.succ_pos _)
      have hmt : m ≤ t.length := by simpa using hm
      have ht : m ≤ t.countP p := by
        refine ih m hmt ?_
        intro j hj hjm
        exact h (j + 1) (by simpa using hj) (by omega)
      rw [List.countP_cons_of_pos p t hpa]
      omega

theorem countP_le_of_suffix {α : Type} (p : α → Bool) :
    ∀ (l : List α) (m : ℕ),
      (∀ (j : ℕ) (hj : j < l.length), m ≤ j → ¬ p (l.get ⟨j, hj⟩)) →
      l.countP p ≤ m := by
  intro l
  induction l with
  | nil => intro m _; simp
  | cons a t ih =>
    intro m h
    cases m with
    | zero =>
      have hall : ∀ x ∈ a :: t, ¬ p x := by
        intro x hx
        obtain ⟨j, hj⟩ := List.mem_iff_get.mp hx
        exact hj ▸ h j.1 j.2 (Nat.zero_le _)
      exact le_of_eq (List.countP_eq_zero.mpr hall)
    | succ m =>
      have ht : t.countP p ≤ m := by
        refine ih m ?_
        intro j hj hmj
        exact h (j + 1) (by simpa using hj) (by omega)
      rw [List.countP_cons]
      split <;> omega

theorem sorted_get_lt_of_le_countP {x : ℚ} {cs : List ℚ}
    (hcs : cs.Sorted (· ≤ ·)) {i : ℕ} (hi : i < cs.length)
    (hc : i + 1 ≤ cs.countP (fun y => decide (y < x))) : cs.get ⟨i, hi⟩ < x := by
  by_contra hge
  push_neg at hge
  have hle : cs.countP (fun y => decide (y < x)) ≤ i := by
    refine countP_le_of_suffix _ cs i ?_
    intro j hj hij
    simp only [decide_eq_true_eq, not_lt]
    rcases Nat.eq_or_lt_of_le hij with rfl | hlt
    · exact hge
    · exact le_trans hge (hcs.rel_get_of_lt hlt)
  omega

theorem le_countP_of_sorted_le {x : ℚ} {cs : List ℚ}
    (hcs : cs.Sorted (· ≤ ·)) {i : ℕ} (hi : i < cs.length)
    (hgi : cs.get ⟨i, hi⟩ ≤ x) :
    i + 1 ≤ cs.countP (fun y => decide (y ≤ x)) := by
  refine countP_ge_of_prefix _ cs (i + 1) hi ?_
  intro j hj hji
  simp only [decide_eq_true_eq]
  rcases Nat.eq_or_lt_of_le (Nat.lt_succ_iff.mp hji) with rfl | hlt
  · exact hgi
  · exact le_trans (hcs.rel_get_of_lt hlt) hgi

/-- Sorting is 1-Lipschitz in the sup distance towards an already sorted
sequence: if `bs` matches the sorted `as` element-wise within `ε`, so does
the ascending sort of `bs`.  (The `i`-th order statistic is monotone in every
coordinate, via counting.) -/
theorem sort_pointwise_close (as bs : List ℚ) (ε : ℚ)
    (has : as.Sorted (· ≤ ·)) (hlen : bs.length = as.length)
    (hb : ∀ (j : ℕ) (hj : j < bs.length),
      |bs.get ⟨j, hj⟩ - as.get ⟨j, by omega⟩| < ε) :
    ∀ (j : ℕ) (hj : j < (bs.insertionSort (· ≤ ·)).length),
      |(bs.insertionSort (· ≤ ·)).get ⟨j, hj⟩ - as.get ⟨j, by
        have := (List.perm_insertionSort (· ≤ ·) bs).length_eq
        omega⟩| < ε := by
  intro j hj
  have hperm : (bs.insertionSort (· ≤ ·)).Perm bs := List.perm_insertionSort _ _
  have hsorted : (bs.insertionSort (· ≤ ·)).Sorted (· ≤ ·) :=
    List.sorted_insertionSort _ _
  have hlcs : (bs.insertionSort (· ≤ ·)).length = bs.length := hperm.length_eq
  have hj2 : j < bs.length := by omega
  have hja : j < as.length := by omega
  rw [abs_sub_lt_iff]
  constructor
  · -- upper bound through the count of entries below as_j + ε
    have hup : (bs.insertionSort (· ≤ ·)).get ⟨j, hj⟩ < as.get ⟨j, hja⟩ + ε := by
      apply sorted_get_lt_of_le_countP hsorted hj
      rw [hperm.countP_eq]
      refine countP_ge_of_prefix _ bs (j + 1) hj2 ?_
      intro t ht htj
      simp only [decide_eq_true_eq]
      have hbt := (abs_sub_lt_iff.mp (hb t ht)).1
      have hmono : as.get ⟨t, by omega⟩ ≤ as.get ⟨j, hja⟩ := by
        rcases Nat.eq_or_lt_of_le (Nat.lt_succ_iff.mp htj) with rfl | hlt
        · exact le_refl _
        · exact has.rel_get_of_lt hlt
      linarith
    linarith
  · -- lower bound: otherwise j + 1 entries of bs would sit below as_j - ε
    by_contra hcon
    push_neg at hcon
    have hclow : (bs.insertionSort (· ≤ ·)).get ⟨j, hj⟩ ≤ as.get ⟨j, hja⟩ - ε := by
      linarith
    have h1 := le_countP_of_sorted_le hsorted hj hclow
    have h2 : bs.countP
        (fun y => decide (y ≤ as.get ⟨j, hja⟩ - ε)) ≤ j := by
      refine countP_le_of_suffix _ bs j ?_
      intro t ht hjt
      simp only [decide_eq_true_eq, not_le]
      have hbt := (abs_sub_lt_iff.mp (hb t ht)).2
      have hmono : as.get ⟨j, hja⟩ ≤ as.get ⟨t, by omega⟩ := by
        rcases Nat.eq_or_lt_of_le hjt with rfl | hlt
        · exact le_refl _
        · exact has.rel_get_of_lt hlt
      linarith
    rw [hperm.countP_eq] at h1
    omega

/-- Claim C9: a model whose axis matches the target axis element-wise within
`epsw = 1e-8` is returned unchanged by the grid-conversion entry point — the
very same model value, no copy and no new construction.  (The entry point
first sorts the target in place; since the model's axis is sorted, the
sorted target still matches element-wise, by `sort_pointwise_close`.) -/
theorem claim_C9_convert_fast_path (sys : FRD ℂ) (target : List ℚ)
    (hlen : target.length = sys.omega.length)
    (hcl : ∀ (j : ℕ) (hj : j < target.length),
      |target.get ⟨j, hj⟩ - sys.omega.get ⟨j, by omega⟩| < epsw) :
    (convertToFRD (.frd sys) target 1 1).1 = .ok sys := by
  have hclose := sort_pointwise_close sys.omega target epsw sys.sortedLe hlen hcl
  show convertFRDaux sys (target.insertionSort (· ≤ ·)) = .ok sys
  have hn : (target.insertionSort (· ≤ ·)).length = sys.omega.length := by
    rw [List.length_insertionSort]
    exact hlen
  rw [convertFRDaux, dif_pos hn, if_pos]
  intro k
  rw [ratAbs_eq_abs]
  exact hclose k.1 k.2

/-- Claim C9 witness: the target `[1, 2, 3 + 1e-9]` differs from the axis of
`aEx` but matches within `epsw`, and the model comes back unchanged. -/
theorem claim_C9_convert_fast_path_witness :
    (convertToFRD (.frd aEx) [1, 2, 3 + 1 / 1000000000] 1 1).1 = .ok aEx := by
  refine claim_C9_convert_fast_path aEx [1, 2, 3 + 1 / 1000000000] rfl ?_
  intro j hj
  have hj3 : j < 3 := by simpa using hj
  interval_cases j <;>
    · rw [abs_sub_lt_iff]
      constructor <;>
        norm_num [aEx, constSISO, axis123, epsw]
